import Mathlib

/-!
Shallow embedding of `src/app/parse.py` (an e-commerce catalog scraper):
the Product data model, the defensive per-listing extraction `get_product`,
the per-page extraction `get_page`, the csv writer
`write_products_to_csv`, the pagination loop `click_load_more`, and the
orchestration `get_all_products`.

Python strings are modelled as lists of characters (`PyStr`), Python ints
as `ℤ`, and Python floats by their exact rational value (`ℚ`); exceptions
are modelled with `Except PyErr`.  The browser / HTML-parsing collaborators
(Selenium, BeautifulSoup) are external to the repository and are modelled
through the exact query surface the code uses: per-listing descendant
element lists with class/tag/attribute/text observations, and per-page
render outcomes.
-/

/-- Python strings, modelled as lists of characters. -/
abbrev PyStr := List Char

/-- The whitespace characters stripped by Python `str.strip()` (and accepted
around `int()` / `float()` literals), restricted to the code points that can
occur in this scraper's data. -/
def isPyWs (c : Char) : Bool :=
  c = ' ' || c = '\t' || c = '\n' || c = '\r' || c = '\x0b' || c = '\x0c' || c = '\xa0'

/-- Python `str.strip()`: drop whitespace from both ends. -/
def pyStrip (l : PyStr) : PyStr :=
  ((l.dropWhile isPyWs).reverse.dropWhile isPyWs).reverse

/-- Python `str.replace("\xa0", " ")`: single-character replacement. -/
def replaceNbsp (l : PyStr) : PyStr :=
  l.map (fun c => if c = '\xa0' then ' ' else c)

/-- Python `str.replace("$", "")`: removes every dollar sign. -/
def stripDollars (l : PyStr) : PyStr :=
  l.filter (fun c => c ≠ '$')

/-- Python `str.split(sep)` for a one-character separator
(`"".split(" ") = [""]`, empty runs between separators are kept). -/
def splitOnChar (sep : Char) : PyStr → List PyStr
  | [] => [[]]
  | c :: rest =>
    match splitOnChar sep rest with
    | [] => [[c]]
    | g :: gs => if c = sep then [] :: g :: gs else (c :: g) :: gs

/-- Decimal digit characters. -/
def isDig (c : Char) : Bool := '0' ≤ c && c ≤ '9'

/-- Numeric value of a digit character. -/
def digitVal (c : Char) : ℕ := c.toNat - 48

/-- Value of a digit string, most significant digit first. -/
def parseDigitsVal (l : PyStr) : ℕ :=
  l.foldl (fun a c => a * 10 + digitVal c) 0

/-- Parse a nonempty all-digit string (the digit core of Python `int()`). -/
def parseNatDigits (l : PyStr) : Option ℕ :=
  if l ≠ [] ∧ l.all isDig then some (parseDigitsVal l) else none

/-- Python `int(s)`: strip whitespace, optional sign, decimal digits;
any other shape raises ValueError (here: `none`). -/
def pythonInt (l : PyStr) : Option ℤ :=
  match pyStrip l with
  | [] => none
  | c :: rest =>
    if c = '-' then (parseNatDigits rest).map (fun n : ℕ => -(n : ℤ))
    else if c = '+' then (parseNatDigits rest).map (fun n : ℕ => (n : ℤ))
    else (parseNatDigits (c :: rest)).map (fun n : ℕ => (n : ℤ))

/-- Split a string at its first dot, if any. -/
def splitDot : PyStr → PyStr × Option PyStr
  | [] => ([], none)
  | c :: rest =>
    if c = '.' then ([], some rest)
    else ((c :: (splitDot rest).1), (splitDot rest).2)

/-- Unsigned part of a Python `float()` literal (`digits`, `digits.digits`,
`.digits` or `digits.`), as a numerator/denominator pair: the value of
`ip.fp` is `(ip * 10^|fp| + fp) / 10^|fp|`. -/
def parseFloatMag (l : PyStr) : Option (ℕ × ℕ) :=
  match splitDot l with
  | (ip, none) => (parseNatDigits ip).map (fun n => (n, 1))
  | (ip, some fp) =>
    if (ip ≠ [] ∨ fp ≠ []) ∧ ip.all isDig ∧ fp.all isDig
    then some (parseDigitsVal ip * 10 ^ fp.length + parseDigitsVal fp, 10 ^ fp.length)
    else none

/-- Python `float(s)`: strip whitespace, optional sign, decimal literal.
(The scientific-notation and inf/nan forms never occur in this program's
inputs or outputs and are not modelled.)  The exact rational value is built
with `mkRat`. -/
def pythonFloat (l : PyStr) : Option ℚ :=
  match pyStrip l with
  | [] => none
  | c :: rest =>
    if c = '-' then (parseFloatMag rest).map (fun nd : ℕ × ℕ => mkRat (-(nd.1 : ℤ)) nd.2)
    else if c = '+' then (parseFloatMag rest).map (fun nd : ℕ × ℕ => mkRat (nd.1 : ℤ) nd.2)
    else (parseFloatMag (c :: rest)).map (fun nd : ℕ × ℕ => mkRat (nd.1 : ℤ) nd.2)

/-- Little-endian decimal digits of `n`, fuel-indexed so that it reduces
definitionally (fuel `n` suffices). -/
def natDigitsRevF : ℕ → ℕ → List ℕ
  | 0, _ => []
  | fuel + 1, n => if n = 0 then [] else n % 10 :: natDigitsRevF fuel (n / 10)

/-- Value of a little-endian digit list (proof-side inverse of
`natDigitsRevF`). -/
def natOfRev : List ℕ → ℕ
  | [] => 0
  | d :: ds => d + 10 * natOfRev ds

/-- Digit character of a value `< 10`. -/
def digitChr : ℕ → Char
  | 0 => '0'
  | 1 => '1'
  | 2 => '2'
  | 3 => '3'
  | 4 => '4'
  | 5 => '5'
  | 6 => '6'
  | 7 => '7'
  | 8 => '8'
  | _ => '9'

/-- Python `str(n)` for a natural number. -/
def natRepr (n : ℕ) : PyStr :=
  if n = 0 then ['0'] else ((natDigitsRevF n n).map digitChr).reverse

/-- Python `str(i)` for an int. -/
def intRepr (i : ℤ) : PyStr :=
  if i < 0 then '-' :: natRepr i.natAbs else natRepr i.natAbs

/-- Multiplicity of `p` in `n` (0 when `p < 2` or `n = 0`), fuel-indexed
so that it reduces definitionally (fuel `n` suffices). -/
def factorCountF : ℕ → ℕ → ℕ → ℕ
  | 0, _, _ => 0
  | fuel + 1, p, n =>
    if 2 ≤ p ∧ n ≠ 0 ∧ n % p = 0 then factorCountF fuel p (n / p) + 1 else 0

/-- Number of decimal digits printed after the point for the float `q`:
enough to print `q` exactly when `q` has a finite decimal expansion, and at
least 1 because Python's `str(float)` always prints a fractional digit
(`str(299.0) = "299.0"`). -/
def priceExp (q : ℚ) : ℕ :=
  max 1 (max (factorCountF q.den 2 q.den) (factorCountF q.den 5 q.den))

/-- The integer `q * 10 ^ priceExp q` (exact whenever `q.den` divides
`10 ^ priceExp q`). -/
def priceScaled (q : ℚ) : ℤ :=
  q.num * 10 ^ priceExp q / (q.den : ℤ)

/-- Left-pad a digit string with zeros to width `w`. -/
def padZeros (w : ℕ) (l : PyStr) : PyStr :=
  List.replicate (w - l.length) '0' ++ l

/-- Python `str(f)` for the float `f`, modelled on its exact rational value:
optional minus sign, integer part, a dot, then `priceExp q` fractional
digits (so `299 ↦ "299.0"`, `1/2 ↦ "0.5"`, `1/4 ↦ "0.25"`). -/
def priceRepr (q : ℚ) : PyStr :=
  (if priceScaled q < 0 then ['-'] else []) ++
    natRepr ((priceScaled q).natAbs / 10 ^ priceExp q) ++
      '.' :: padZeros (priceExp q) (natRepr ((priceScaled q).natAbs % 10 ^ priceExp q))

/-- An element of the rendered document, as observed through the
BeautifulSoup query surface used by the scraper: tag name, class list,
attribute list, and the element's (recursively concatenated) text. -/
structure Element where
  tag : PyStr
  classes : List PyStr
  attrs : List (PyStr × PyStr)
  text : PyStr
deriving DecidableEq, Repr

/-- One listing subtree (a `.thumbnail` card): its descendant elements in
document order. -/
structure ListingNode where
  descendants : List Element
deriving DecidableEq, Repr

/-- `soup.select_one("." + cls)`: the first descendant (document order)
whose class list contains `cls`; `None` when there is none. -/
def select_one (cls : String) (node : ListingNode) : Option Element :=
  (node.descendants.filter (fun e => e.classes.contains cls.data)).head?

/-- `tag["name"]`: attribute lookup, `KeyError` (here: `none`) when absent. -/
def getAttr (e : Element) (name : String) : Option PyStr :=
  ((e.attrs.filter (fun a => a.1 = name.data)).head?).map (fun a => a.2)

/-- `soup.find_all("span", class_="ws-icon-star")`, counted: the number of
descendant `span` elements whose class list contains `ws-icon-star`. -/
def starCount (node : ListingNode) : ℕ :=
  (node.descendants.filter
    (fun e => e.tag = "span".data && e.classes.contains "ws-icon-star".data)).length

/-- The Python exceptions that can occur in the modelled code paths. -/
inductive PyErr where
  | typeError
  | keyError
  | valueError
  | attributeError
  | ioError
  | pageError
deriving DecidableEq, Repr

/-- The `Product` dataclass: `title/description: str`, `price: float`,
`rating/num_of_reviews: int`. -/
structure Product where
  title : PyStr
  description : PyStr
  price : ℚ
  rating : ℤ
  num_of_reviews : ℤ
deriving DecidableEq, Repr

/-- The `title` line of `get_product`:
`product_soup.select_one(".title")["title"]` — TypeError when the element
is absent (`None["title"]`), KeyError when the attribute is absent. -/
def titleStep (node : ListingNode) : Except PyErr PyStr :=
  match select_one "title" node with
  | none => Except.error PyErr.typeError
  | some e =>
    match getAttr e "title" with
    | none => Except.error PyErr.keyError
    | some t => Except.ok t

/-- The `description` line of `get_product`: element text with `"\xa0"`
replaced by a space and then stripped, or `""` when the element is absent.
This line cannot raise. -/
def descriptionVal (node : ListingNode) : PyStr :=
  match select_one "description" node with
  | some e => pyStrip (replaceNbsp e.text)
  | none => []

/-- The `price` line of `get_product`:
`float(....text.replace("$", ""))` when the element is present (ValueError
on a malformed literal), `0.0` when absent. -/
def priceStep (node : ListingNode) : Except PyErr ℚ :=
  match select_one "price" node with
  | some e =>
    match pythonFloat (stripDollars e.text) with
    | some q => Except.ok q
    | none => Except.error PyErr.valueError
  | none => Except.ok (0 : ℚ)

/-- The `num_of_reviews` line of `get_product`:
`int(....text.split(" ")[0])` when the element is present (ValueError on a
malformed first token), `0` when absent. -/
def reviewStep (node : ListingNode) : Except PyErr ℤ :=
  match select_one "review-count" node with
  | some e =>
    match pythonInt ((splitOnChar ' ' e.text).headD []) with
    | some i => Except.ok i
    | none => Except.error PyErr.valueError
  | none => Except.ok (0 : ℤ)

/-- The body of `get_product`'s try-block: the field lines in source
order, each fallible line short-circuiting with its exception. -/
def extractBody (node : ListingNode) : Except PyErr Product := do
  let title ← titleStep node
  let description : PyStr := descriptionVal node
  let price ← priceStep node
  let rating : ℤ := (starCount node : ℤ)
  let num_of_reviews ← reviewStep node
  pure ⟨title, description, price, rating, num_of_reviews⟩

/-- `get_product`: the try-block above wrapped in `except Exception`,
which catches every error and returns `None`. -/
def get_product (node : ListingNode) : Option Product :=
  match extractBody node with
  | Except.ok p => some p
  | Except.error _ => none

/-- A rendered document, observed as `soup.select(".thumbnail")`:
the listing nodes in document order. -/
structure Document where
  thumbnails : List ListingNode
deriving DecidableEq, Repr

/-- `get_page`: the render outcome models `driver.get` / `accept_cookies` /
`click_load_more` / `page_source` / parsing as a black box that either
produces the rendered document or raises.  On success the result is
`[get_product(p) for p in soup.select(".thumbnail")]` — note that `None`
results are kept in the list; on any exception the handler logs and
returns `[]`. -/
def get_page (renderOutcome : Except PyErr Document) : List (Option Product) :=
  match renderOutcome with
  | Except.ok doc => doc.thumbnails.map get_product
  | Except.error _ => []

/-- `PRODUCT_FIELDS = [field.name for field in fields(Product)]`:
the csv header row, in dataclass declaration order. -/
def PRODUCT_FIELDS : List PyStr :=
  ["title".data, "description".data, "price".data, "rating".data,
   "num_of_reviews".data]

/-- The `formatted_product` tuple of one record, with each field rendered
the way `csv.writer` stringifies it (`str` on each value). -/
def productRow (p : Product) : List PyStr :=
  [p.title, p.description, priceRepr p.price, intRepr p.rating,
   intRepr p.num_of_reviews]

/-- Excel-dialect QUOTE_MINIMAL: a field is quoted iff it contains the
delimiter, the quote character, or a line-terminator character. -/
def needsQuote (f : PyStr) : Bool :=
  f.any (fun c => c = ',' || c = '"' || c = '\r' || c = '\n')

/-- Double every embedded quote character. -/
def escapeQuotes : PyStr → PyStr
  | [] => []
  | c :: rest =>
    if c = '"' then '"' :: '"' :: escapeQuotes rest else c :: escapeQuotes rest

/-- `csv.writer` field encoding (excel dialect, QUOTE_MINIMAL). -/
def encodeField (f : PyStr) : PyStr :=
  if needsQuote f then '"' :: (escapeQuotes f ++ ['"']) else f

/-- One csv row: comma-separated encoded fields, `"\r\n"` terminator. -/
def encodeRow : List PyStr → PyStr
  | [] => ['\r', '\n']
  | [f] => encodeField f ++ ['\r', '\n']
  | f :: fs => encodeField f ++ ',' :: encodeRow fs

/-- A whole csv file: the concatenation of its encoded rows. -/
def encodeCSV (rows : List (List PyStr)) : PyStr :=
  (rows.map encodeRow).flatten

/-- The file content produced by `write_products_to_csv` for a list of
`Product`: the header row then one row per record, in input order. -/
def csvContent (products : List Product) : PyStr :=
  encodeCSV (PRODUCT_FIELDS :: products.map productRow)

/-- Scanner for a quoted csv field, after the opening quote: a doubled
quote is one literal quote, a single quote closes the field.  Fuel-indexed
(the input length suffices); `none` on unterminated input. -/
def parseQuotedF : ℕ → PyStr → PyStr → Option (PyStr × PyStr)
  | 0, _, _ => none
  | fuel + 1, acc, s =>
    match s with
    | [] => none
    | c :: rest =>
      if c = '"' then
        if rest.head? = some '"' then parseQuotedF fuel (acc ++ ['"']) rest.tail
        else some (acc, rest)
      else parseQuotedF fuel (acc ++ [c]) rest

/-- Scanner for an unquoted csv field: everything up to the next comma or
`"\r\n"` terminator (or end of input). -/
def parseUnquoted : PyStr → PyStr × PyStr
  | [] => ([], [])
  | c :: rest =>
    if c = ',' then ([], c :: rest)
    else if c = '\r' ∧ rest.head? = some '\n' then ([], c :: rest)
    else ((c :: (parseUnquoted rest).1), (parseUnquoted rest).2)

/-- Parse one csv field: quoted if it starts with a quote, else unquoted. -/
def parseFieldP (s : PyStr) : Option (PyStr × PyStr) :=
  if s.head? = some '"' then parseQuotedF s.length [] s.tail
  else some (parseUnquoted s)

/-- Parse the comma-separated fields of one csv row up to and including its
`"\r\n"` terminator.  Fuel-indexed (one field per unit of fuel). -/
def parseRowFieldsF : ℕ → PyStr → Option (List PyStr × PyStr)
  | 0, _ => none
  | fuel + 1, s => do
    let (f, rest) ← parseFieldP s
    match rest with
    | [] => none
    | c :: r =>
      if c = ',' then do
        let (fs, r2) ← parseRowFieldsF fuel r
        pure (f :: fs, r2)
      else
        if c = '\r' ∧ r.head? = some '\n' then pure ([f], r.tail)
        else none

/-- Parse a sequence of csv rows until end of input.  Fuel-indexed
(one row per unit of fuel). -/
def parseRecordsF : ℕ → PyStr → Option (List (List PyStr))
  | 0, _ => none
  | fuel + 1, s =>
    if s = [] then some []
    else do
      let (fs, rest) ← parseRowFieldsF (s.length + 1) s
      let rows ← parseRecordsF fuel rest
      pure (fs :: rows)

/-- A standard csv reader (excel dialect), used to state the re-reading
half of the writer round-trip property. -/
def parseCSV (s : PyStr) : Option (List (List PyStr)) :=
  parseRecordsF (s.length + 1) s

/-- Coerce one data row back to the declared field types
`(str, str, float, int, int)`. -/
def decodeRow : List PyStr → Option Product
  | [t, d, pr, ra, nr] => do
    let price ← pythonFloat pr
    let rating ← pythonInt ra
    let reviews ← pythonInt nr
    pure ⟨t, d, price, rating, reviews⟩
  | _ => none

/-- The fixed `PAGES` configuration (dict insertion order), with the
`urljoin` results written out. -/
def PAGES : List (PyStr × PyStr) :=
  [("home".data, "https://webscraper.io/test-sites/e-commerce/more/".data),
   ("computers".data,
    "https://webscraper.io/test-sites/e-commerce/more/computers".data),
   ("laptops".data,
    "https://webscraper.io/test-sites/e-commerce/more/computers/laptops".data),
   ("tablets".data,
    "https://webscraper.io/test-sites/e-commerce/more/computers/tablets".data),
   ("phones".data,
    "https://webscraper.io/test-sites/e-commerce/more/phones".data),
   ("touch".data,
    "https://webscraper.io/test-sites/e-commerce/more/phones/touch".data)]

/-- Per-page external behavior: the render outcome consumed by `get_page`
and whether opening the page's output file raises IOError. -/
structure PageEnv where
  render : Except PyErr Document
  ioFail : Bool

/-- The rows `write_products_to_csv` emits before hitting a `None` entry:
`formatted_product` reads `product.title` on each element, so the first
`None` raises AttributeError (`'NoneType' object has no attribute
'title'`). -/
def rowsUntilNone : List (Option Product) → List (List PyStr) × Bool
  | [] => ([], false)
  | none :: _ => ([], true)
  | some p :: rest =>
    match rowsUntilNone rest with
    | (rows, crashed) => (productRow p :: rows, crashed)

/-- `write_products_to_csv` at the orchestration level.  Result: the file
content if a file was created, and the uncaught exception if any.  An
IOError on open is caught by `except IOError` (no file, run continues);
an AttributeError from a `None` entry is not an IOError and propagates
(the file exists, holding the header and the rows before the `None`). -/
def write_products_to_csv (ioFail : Bool) (products : List (Option Product)) :
    Option PyStr × Option PyErr :=
  if ioFail then (none, none)
  else
    match rowsUntilNone products with
    | (rows, crashed) =>
      (some (encodeCSV (PRODUCT_FIELDS :: rows)),
       if crashed then some PyErr.attributeError else none)

/-- Observable outcome of one run of the orchestration: the output files
created (in order), how many times `close_driver` ran, and the uncaught
exception that aborted the run, if any. -/
structure RunState where
  files : List PyStr
  driverCloses : ℕ
  crash : Option PyErr
deriving DecidableEq, Repr

/-- The `for page_name, page_url in tqdm(PAGES.items())` loop of
`get_all_products`, followed by `close_driver(driver)`.  There is no
try/finally: an uncaught exception from the loop body aborts the run
before `close_driver`. -/
def runPages (env : PyStr → PageEnv) : List (PyStr × PyStr) → RunState
  | [] => ⟨[], 1, none⟩
  | (name, url) :: rest =>
    let products := get_page (env url).render
    if products.isEmpty then runPages env rest
    else
      match write_products_to_csv (env url).ioFail products with
      | (content, err) =>
        let created : List PyStr :=
          match content with
          | some _ => [name ++ ".csv".data]
          | none => []
        match err with
        | some e => ⟨created, 0, some e⟩
        | none =>
          match runPages env rest with
          | s => ⟨created ++ s.files, s.driverCloses, s.crash⟩

/-- `get_all_products`, run against a per-URL external environment. -/
def get_all_products (env : PyStr → PageEnv) : RunState :=
  runPages env PAGES

/-- Outcome of one iteration of `click_load_more`'s wait: the button became
clickable and the click succeeded, or the wait timed out, or the click was
intercepted. -/
inductive WaitOutcome where
  | clickable
  | timeout
  | intercepted
deriving DecidableEq, Repr

/-- `click_load_more`'s `while True` loop against an environment giving the
outcome of iteration `i`.  `clickable` completes one click-then-pause
cycle; `timeout` / `intercepted` raise, are caught by the `except`, and the
function returns normally.  Fuel-indexed: `some i` means the loop ended
normally after `i` full cycles; `none` means it was still looping after
`fuel` iterations. -/
def clickLoadMoreF (env : ℕ → WaitOutcome) : ℕ → ℕ → Option ℕ
  | 0, _ => none
  | fuel + 1, i =>
    match env i with
    | WaitOutcome.clickable => clickLoadMoreF env fuel (i + 1)
    | _ => some i

/-! ### Concrete fixtures used by the claim theorems and witnesses -/

/-- A fully populated listing: title element with a `title` attribute. -/
def elTitleAsus : Element :=
  ⟨"a".data, ["title".data], [("title".data, "Asus X".data)], "Asus...".data⟩

/-- Description element with text `"ok"`. -/
def elDescOk : Element := ⟨"p".data, ["description".data], [], "ok".data⟩

/-- Price element with text `"$299.00"`. -/
def elPrice299 : Element := ⟨"h4".data, ["price".data], [], "$299.00".data⟩

/-- A filled-star marker sub-element. -/
def elStarSpan : Element :=
  ⟨"span".data, ["ws-icon".data, "ws-icon-star".data], [], ([] : PyStr)⟩

/-- Review-count element with text `"12 reviews"`. -/
def elRev12 : Element := ⟨"p".data, ["review-count".data], [], "12 reviews".data⟩

/-- The fully populated listing node of the two-node scenario. -/
def nodeAsus : ListingNode :=
  ⟨[elTitleAsus, elDescOk, elPrice299, elStarSpan, elStarSpan, elStarSpan, elRev12]⟩

/-- The record extracted from `nodeAsus`. -/
def prodAsus : Product := ⟨"Asus X".data, "ok".data, 299, 3, 12⟩

/-- Title-only listing node of the two-node scenario. -/
def elTitleDell : Element :=
  ⟨"a".data, ["title".data], [("title".data, "Dell Y".data)], ([] : PyStr)⟩

/-- The listing node holding only `elTitleDell`. -/
def nodeDell : ListingNode := ⟨[elTitleDell]⟩

/-- The record extracted from `nodeDell` (all fallbacks). -/
def prodDell : Product := ⟨"Dell Y".data, ([] : PyStr), 0, 0, 0⟩

/-- The two-node document of the scenario. -/
def docTwoNodes : Document := ⟨[nodeAsus, nodeDell]⟩

/-- A listing node with no title element at all:
`select_one(".title")` is `None`, so `None["title"]` raises TypeError. -/
def nodeNoTitle : ListingNode := ⟨[elDescOk]⟩

/-- The configured URL of the `home` page. -/
def homeUrl : PyStr := "https://webscraper.io/test-sites/e-commerce/more/".data

/-- Environment in which the `home` page renders a document whose single
listing node has no title (so its extraction yields `None`) and every
other page fails to render; no I/O errors. -/
def envNoneCrash : PyStr → PageEnv := fun url =>
  if url = homeUrl then ⟨Except.ok ⟨[nodeNoTitle]⟩, false⟩
  else ⟨Except.error PyErr.pageError, false⟩

/-- A title element carrying attribute value `"X"`. -/
def elTitleX : Element :=
  ⟨"a".data, ["title".data], [("title".data, "X".data)], ([] : PyStr)⟩

/-- A present price element whose text is not a float literal. -/
def elPriceNA : Element := ⟨"h4".data, ["price".data], [], "N/A".data⟩

/-- Valid title, malformed price text. -/
def nodeBadPrice : ListingNode := ⟨[elTitleX, elPriceNA]⟩

/-- A present review-count element whose first token is not an int literal. -/
def elRevBad : Element := ⟨"p".data, ["review-count".data], [], "abc reviews".data⟩

/-- Valid title, malformed review-count text. -/
def nodeBadReview : ListingNode := ⟨[elTitleX, elRevBad]⟩

/-- A description element whose text has leading/trailing whitespace, an
interior run of two spaces, and a non-breaking space. -/
def elDescWs : Element :=
  ⟨"p".data, ["description".data], [], " a  b\xa0c ".data⟩

/-- Listing node with a valid title and the whitespace-rich description. -/
def nodeDescWs : ListingNode := ⟨[elTitleX, elDescWs]⟩

/-- A load-more environment that is clickable exactly three times. -/
def envThreeClicks : ℕ → WaitOutcome :=
  fun i => if i < 3 then WaitOutcome.clickable else WaitOutcome.timeout

/-- A record whose text fields contain the csv delimiter, quote and
line-terminator characters and whose price and review count are negative. -/
def prodTricky : Product :=
  ⟨"a\"b,\r\nc".data, " spaced  text ".data, mkRat (-1199999) 100, 0, -7⟩

/-- Witness record list for the writer round-trip. -/
def prodsRoundTrip : List Product := [prodAsus, prodDell, prodTricky]

/-- The record extracted from `nodeDescWs`. -/
def prodDescWs : Product := ⟨"X".data, "a  b c".data, 0, 0, 0⟩

/-! ### Claim theorems -/

theorem exceptP_bind_err {α β : Type} (e : PyErr) (f : α → Except PyErr β) :
    (Except.error e : Except PyErr α) >>= f = Except.error e := rfl

theorem exceptP_bind_ok {α β : Type} (a : α) (f : α → Except PyErr β) :
    (Except.ok a : Except PyErr α) >>= f = f a := rfl

/-- If every fallible line succeeds, `get_product` assembles the record
from the line results. -/
theorem get_product_of_steps (node : ListingNode) (t : PyStr) (q : ℚ) (r : ℤ)
    (ht : titleStep node = Except.ok t) (hq : priceStep node = Except.ok q)
    (hr : reviewStep node = Except.ok r) :
    get_product node =
      some ⟨t, descriptionVal node, q, (starCount node : ℤ), r⟩ := by
  simp [get_product, extractBody, ht, hq, hr, exceptP_bind_ok]

/-- A failing title line makes `get_product` return `None`. -/
theorem get_product_none_of_title_err (node : ListingNode) (e : PyErr)
    (h : titleStep node = Except.error e) : get_product node = none := by
  simp [get_product, extractBody, h, exceptP_bind_err]

/-- A failing price line makes `get_product` return `None`. -/
theorem get_product_none_of_price_err (node : ListingNode) (e : PyErr)
    (h : priceStep node = Except.error e) : get_product node = none := by
  cases ht : titleStep node with
  | error e2 => exact get_product_none_of_title_err node e2 ht
  | ok t =>
    simp [get_product, extractBody, ht, h, exceptP_bind_ok, exceptP_bind_err]

/-- A failing review-count line makes `get_product` return `None`. -/
theorem get_product_none_of_review_err (node : ListingNode) (e : PyErr)
    (h : reviewStep node = Except.error e) : get_product node = none := by
  cases ht : titleStep node with
  | error e2 => exact get_product_none_of_title_err node e2 ht
  | ok t =>
    cases hq : priceStep node with
    | error e3 => exact get_product_none_of_price_err node e3 hq
    | ok q =>
      simp [get_product, extractBody, ht, hq, h, exceptP_bind_ok,
        exceptP_bind_err]

/-- Inversion: a produced record determines the outcome of every line. -/
theorem get_product_some_inv (node : ListingNode) (p : Product)
    (h : get_product node = some p) :
    titleStep node = Except.ok p.title ∧
    priceStep node = Except.ok p.price ∧
    reviewStep node = Except.ok p.num_of_reviews ∧
    p.description = descriptionVal node ∧
    p.rating = (starCount node : ℤ) := by
  cases ht : titleStep node with
  | error e => rw [get_product_none_of_title_err node e ht] at h; cases h
  | ok t =>
    cases hq : priceStep node with
    | error e => rw [get_product_none_of_price_err node e hq] at h; cases h
    | ok q =>
      cases hr : reviewStep node with
      | error e =>
        rw [get_product_none_of_review_err node e hr] at h; cases h
      | ok r =>
        rw [get_product_of_steps node t q r ht hq hr] at h
        cases h
        exact ⟨rfl, rfl, rfl, rfl, rfl⟩

/-- `pyStrip` only removes characters at the two ends: the stripped string
occurs contiguously (interior untouched) inside the original. -/
theorem pyStrip_infix (l : PyStr) : ∃ pre post, l = pre ++ pyStrip l ++ post := by
  refine ⟨l.takeWhile isPyWs,
    ((l.dropWhile isPyWs).reverse.takeWhile isPyWs).reverse, ?_⟩
  have h1 : l.dropWhile isPyWs =
      pyStrip l ++ ((l.dropWhile isPyWs).reverse.takeWhile isPyWs).reverse := by
    unfold pyStrip
    rw [← List.reverse_append, List.takeWhile_append_dropWhile,
      List.reverse_reverse]
  conv_lhs => rw [← List.takeWhile_append_dropWhile (p := isPyWs) (l := l), h1]
  rw [List.append_assoc]

/-- C9: the `0` fallback for `num_of_reviews` applies only when the
review-count element is absent — a present element with a non-integer
first token makes the whole record `None` (even with a valid title), and
the same asymmetry holds for price: present-but-non-numeric price text
gives `None`, while an absent element gives the `0.0` fallback. -/
theorem fallback_only_when_absent (node : ListingNode) :
    (∀ e, select_one "review-count" node = some e →
      pythonInt ((splitOnChar ' ' e.text).headD []) = none →
      get_product node = none) ∧
    (∀ e, select_one "price" node = some e →
      pythonFloat (stripDollars e.text) = none →
      get_product node = none) ∧
    (select_one "review-count" node = none →
      ∀ p, get_product node = some p → p.num_of_reviews = 0) ∧
    (select_one "price" node = none →
      ∀ p, get_product node = some p → p.price = 0) := by
  refine ⟨?_, ?_, ?_, ?_⟩
  · intro e he hint
    exact get_product_none_of_review_err node PyErr.valueError
      (by simp only [reviewStep, he]; rw [hint])
  · intro e he hfl
    exact get_product_none_of_price_err node PyErr.valueError
      (by simp only [priceStep, he]; rw [hfl])
  · intro habs p hp
    have hr : reviewStep node = Except.ok 0 := by simp [reviewStep, habs]
    have := (get_product_some_inv node p hp).2.2.1
    rw [hr] at this
    exact (Except.ok.inj this).symm
  · intro habs p hp
    have hq : priceStep node = Except.ok 0 := by simp [priceStep, habs]
    have := (get_product_some_inv node p hp).2.1
    rw [hq] at this
    exact (Except.ok.inj this).symm

/-- C9 witness: nodes with a valid title but a non-integer review token /
non-numeric price text yield no record at all. -/
theorem fallback_only_when_absent_witness :
    get_product nodeBadReview = none ∧ get_product nodeBadPrice = none :=
  ⟨(fallback_only_when_absent nodeBadReview).1 elRevBad (by decide) (by decide),
   (fallback_only_when_absent nodeBadPrice).2.1 elPriceNA (by decide)
     (by decide)⟩

/-- C5 counterexample: a listing subtree whose title element carries the
title attribute `"X"` but whose price text is `"N/A"` makes `get_product`
return `None` — no record with that title is returned, refuting the claim
as universally stated. -/
theorem title_claim_counterexample :
    select_one "title" nodeBadPrice = some elTitleX ∧
    getAttr elTitleX "title" = some "X".data ∧
    get_product nodeBadPrice = none := by decide

/-- C5 (amended): if the title element carries a title attribute AND every
present price / review-count element parses, then `get_product` returns a
record whose title equals the attribute value. -/
theorem title_extraction_amended (node : ListingNode) (e : Element) (t : PyStr)
    (ht : select_one "title" node = some e)
    (ha : getAttr e "title" = some t)
    (hpr : ∀ pe, select_one "price" node = some pe →
      ∃ q, pythonFloat (stripDollars pe.text) = some q)
    (hrv : ∀ re, select_one "review-count" node = some re →
      ∃ i, pythonInt ((splitOnChar ' ' re.text).headD []) = some i) :
    ∃ p, get_product node = some p ∧ p.title = t := by
  have hts : titleStep node = Except.ok t := by simp [titleStep, ht, ha]
  have hqs : ∃ q, priceStep node = Except.ok q := by
    cases hp : select_one "price" node with
    | none => exact ⟨0, by simp [priceStep, hp]⟩
    | some pe =>
      obtain ⟨q, hq⟩ := hpr pe hp
      exact ⟨q, by simp only [priceStep, hp]; rw [hq]⟩
  have hrs : ∃ r, reviewStep node = Except.ok r := by
    cases hr : select_one "review-count" node with
    | none => exact ⟨0, by simp [reviewStep, hr]⟩
    | some re =>
      obtain ⟨i, hi⟩ := hrv re hr
      exact ⟨i, by simp only [reviewStep, hr]; rw [hi]⟩
  obtain ⟨q, hq⟩ := hqs
  obtain ⟨r, hr⟩ := hrs
  exact ⟨_, get_product_of_steps node t q r hts hq hr, rfl⟩

/-- C5 witness: on the fully populated node the amended statement yields
the record titled `"Asus X"`. -/
theorem title_extraction_amended_witness :
    ∃ p, get_product nodeAsus = some p ∧ p.title = "Asus X".data :=
  title_extraction_amended nodeAsus elTitleAsus "Asus X".data (by decide)
    (by decide)
    (by intro pe hpe
        have h : some elPrice299 = some pe := by
          rw [← hpe]; decide
        cases h
        exact ⟨_, rfl⟩)
    (by intro re hre
        have h : some elRev12 = some re := by
          rw [← hre]; decide
        cases h
        exact ⟨_, rfl⟩)

/-- C10: for a listing subtree with a present description element and a
produced record, the record's description is the element text with every
non-breaking space replaced by a regular space and the ends stripped; the
stripping touches only the two ends, so interior whitespace runs are
preserved (the stripped text occurs contiguously in the replaced text). -/
theorem description_normalization (node : ListingNode) (e : Element)
    (p : Product)
    (hd : select_one "description" node = some e)
    (hp : get_product node = some p) :
    p.description = pyStrip (replaceNbsp e.text) ∧
    ∃ pre post, replaceNbsp e.text = pre ++ p.description ++ post := by
  have hdesc : p.description = pyStrip (replaceNbsp e.text) := by
    have := (get_product_some_inv node p hp).2.2.2.1
    rw [this]; simp [descriptionVal, hd]
  refine ⟨hdesc, ?_⟩
  rw [hdesc]
  exact pyStrip_infix (replaceNbsp e.text)

/-- C10 witness: `" a  b\xa0c "` comes back as `"a  b c"` — ends stripped,
the non-breaking space now a plain space, the interior double space kept. -/
theorem description_normalization_witness :
    prodDescWs.description = pyStrip (replaceNbsp elDescWs.text) ∧
    ∃ pre post, replaceNbsp elDescWs.text = pre ++ prodDescWs.description ++ post :=
  description_normalization nodeDescWs elDescWs prodDescWs (by decide)
    (by decide)

/-- C4: for the two-listing document with one fully populated node
(title "Asus X", description "ok", price "$299.00", 3 star markers,
"12 reviews") and one title-only node ("Dell Y"), extraction produces
exactly the records ("Asus X","ok",299.0,3,12) and ("Dell Y","",0.0,0,0),
in that order. -/
theorem two_node_scenario_extraction :
    get_page (Except.ok docTwoNodes) = [some prodAsus, some prodDell] ∧
    prodAsus = ⟨"Asus X".data, "ok".data, 299, 3, 12⟩ ∧
    prodDell = ⟨"Dell Y".data, [], 0, 0, 0⟩ := by decide

/-- C1 (code-bug evidence): a listing node whose extraction fails yields
`None`, but `get_page` does NOT drop it from the page's record list — the
comprehension `[get_product(product) for product in products]` keeps the
`None` entry (the other node's record is unaffected and the page is not
aborted, but the claimed "silently dropped" filtering does not happen). -/
theorem failed_node_not_dropped :
    get_product nodeNoTitle = none ∧
    get_page (Except.ok ⟨[nodeAsus, nodeNoTitle]⟩) = [some prodAsus, none] ∧
    (get_page (Except.ok ⟨[nodeAsus, nodeNoTitle]⟩)).length = 2 := by decide

/-- C2 (code-bug evidence): a page whose only listing node fails extraction
yields zero records (`[None]`), yet `if products:` is true for the
non-empty list, so the writer IS invoked and `home.csv` IS created
(holding just the header before the run crashes). -/
theorem writer_invoked_on_zero_records :
    get_page (envNoneCrash homeUrl).render = [none] ∧
    (get_all_products envNoneCrash).files = ["home.csv".data] := by decide

/-- C3 (code-bug evidence): in the same run, the `None` entry raises an
AttributeError inside the writer that `except IOError` does not catch;
`get_all_products` has no try/finally, so the run aborts and
`close_driver` never executes — the session is closed zero times, not
exactly once. -/
theorem driver_not_closed_on_crash :
    (get_all_products envNoneCrash).driverCloses = 0 ∧
    (get_all_products envNoneCrash).crash = some PyErr.attributeError := by decide

/-- C7 helper: the loop, started at cycle `i` with `n` clickable outcomes
ahead, ends normally at `some (i + n)`. -/
theorem clickLoadMoreF_spec (env : ℕ → WaitOutcome) :
    ∀ fuel n i, n < fuel →
      (∀ j, j < n → env (i + j) = WaitOutcome.clickable) →
      env (i + n) ≠ WaitOutcome.clickable →
      clickLoadMoreF env fuel i = some (i + n) := by
  intro fuel
  induction fuel with
  | zero => omega
  | succ f ih =>
    intro n i hn hlt hstop
    match n with
    | 0 =>
      have h0 : env i ≠ WaitOutcome.clickable := by simpa using hstop
      cases he : env i with
      | clickable => exact absurd he h0
      | timeout => simp [clickLoadMoreF, he]
      | intercepted => simp [clickLoadMoreF, he]
    | m + 1 =>
      have he : env i = WaitOutcome.clickable := by
        have := hlt 0 (by omega)
        simpa using this
      have hrec := ih m (i + 1) (by omega)
        (fun j hj => by
          have := hlt (j + 1) (by omega)
          simpa [Nat.add_assoc, Nat.add_comm 1 j] using this)
        (by
          have : i + 1 + m = i + (m + 1) := by omega
          rw [this]; exact hstop)
      simp only [clickLoadMoreF, he]
      rw [hrec]
      congr 1
      omega

/-- C7: if the load-more control is clickable for exactly the first `n`
wait cycles and then stops being clickable (timeout) or is intercepted,
the `while True` loop of `click_load_more` performs exactly `n`
click-then-pause cycles and then terminates normally (the exception is
caught), for any fuel bound larger than `n`. -/
theorem click_load_more_exact_cycles (env : ℕ → WaitOutcome) (n : ℕ)
    (hlt : ∀ j, j < n → env j = WaitOutcome.clickable)
    (hstop : env n ≠ WaitOutcome.clickable) :
    ∀ fuel, n < fuel → clickLoadMoreF env fuel 0 = some n := by
  intro fuel hf
  have := clickLoadMoreF_spec env fuel n 0 hf
    (fun j hj => by simpa using hlt j hj)
    (by simpa using hstop)
  simpa using this

/-- C7 witness: with a control clickable exactly three times, the loop
performs exactly three cycles then ends normally. -/
theorem click_load_more_exact_cycles_witness :
    clickLoadMoreF envThreeClicks 10 0 = some 3 :=
  click_load_more_exact_cycles envThreeClicks 3 (by decide) (by decide) 10
    (by norm_num)

/-- C8: `get_product` is total — the `except Exception` handler catches
every exception the extraction body can raise, so for every listing node
the function returns `some` record (body succeeded) or `none` (body
raised), and never propagates an error to its caller. -/
theorem get_product_never_raises (node : ListingNode) :
    (∀ e, extractBody node = Except.error e → get_product node = none) ∧
    (∀ p, extractBody node = Except.ok p → get_product node = some p) := by
  constructor <;> intro x h <;> simp [get_product, h]

/-- C8 witness: a node whose body raises TypeError comes back as `none`;
a fully populated node comes back as `some`. -/
theorem get_product_never_raises_witness :
    get_product nodeNoTitle = none ∧ get_product nodeAsus = some prodAsus :=
  ⟨(get_product_never_raises nodeNoTitle).1 PyErr.typeError rfl,
   (get_product_never_raises nodeAsus).2 prodAsus rfl⟩

/-! ### Numeral round-trip lemmas (for the writer round-trip C6) -/

theorem digitVal_digitChr (d : ℕ) (h : d < 10) : digitVal (digitChr d) = d := by
  interval_cases d <;> rfl

theorem isDig_digitChr (d : ℕ) (h : d < 10) : isDig (digitChr d) = true := by
  interval_cases d <;> rfl

theorem isDig_not_ws (c : Char) (h : isDig c = true) : isPyWs c = false := by
  have h1 : c ≠ ' ' := by rintro rfl; revert h; decide
  have h2 : c ≠ '\t' := by rintro rfl; revert h; decide
  have h3 : c ≠ '\n' := by rintro rfl; revert h; decide
  have h4 : c ≠ '\r' := by rintro rfl; revert h; decide
  have h5 : c ≠ '\x0b' := by rintro rfl; revert h; decide
  have h6 : c ≠ '\x0c' := by rintro rfl; revert h; decide
  have h7 : c ≠ '\xa0' := by rintro rfl; revert h; decide
  simp [isPyWs, h1, h2, h3, h4, h5, h6, h7]

theorem natDigitsRevF_lt (fuel n : ℕ) : ∀ d ∈ natDigitsRevF fuel n, d < 10 := by
  induction fuel generalizing n with
  | zero => simp [natDigitsRevF]
  | succ f ih =>
    intro d hd
    by_cases h : n = 0
    · simp [natDigitsRevF, h] at hd
    · simp only [natDigitsRevF, if_neg h] at hd
      rcases List.mem_cons.mp hd with h1 | h1
      · subst h1; exact Nat.mod_lt _ (by norm_num)
      · exact ih (n / 10) d h1

theorem natOfRev_natDigitsRevF (fuel : ℕ) :
    ∀ n, n ≤ fuel → natOfRev (natDigitsRevF fuel n) = n := by
  induction fuel with
  | zero => intro n h; interval_cases n; rfl
  | succ f ih =>
    intro n h
    by_cases h0 : n = 0
    · simp [natDigitsRevF, h0, natOfRev]
    · simp only [natDigitsRevF, if_neg h0, natOfRev]
      rw [ih (n / 10) (by omega)]
      omega

theorem length_natDigitsRevF (fuel : ℕ) :
    ∀ n k, n ≤ fuel → n < 10 ^ k → (natDigitsRevF fuel n).length ≤ k := by
  induction fuel with
  | zero => intro n k h hk; simp [natDigitsRevF]
  | succ f ih =>
    intro n k h hk
    by_cases h0 : n = 0
    · simp [natDigitsRevF, h0]
    · simp only [natDigitsRevF, if_neg h0, List.length_cons]
      cases k with
      | zero => simp at hk; omega
      | succ k2 =>
        have hdiv : n / 10 < 10 ^ k2 := by
          rw [Nat.div_lt_iff_lt_mul (by norm_num), ← pow_succ]
          exact hk
        have := ih (n / 10) k2 (by omega) hdiv
        omega

theorem foldl_digits (rds : List ℕ) (h : ∀ d ∈ rds, d < 10) : ∀ a : ℕ,
    List.foldl (fun x c => x * 10 + digitVal c) a ((rds.map digitChr).reverse) =
      a * 10 ^ rds.length + natOfRev rds := by
  induction rds with
  | nil => intro a; simp [natOfRev]
  | cons d ds ih =>
    intro a
    simp only [List.map_cons, List.reverse_cons, List.foldl_append,
      List.foldl_cons, List.foldl_nil]
    rw [ih (fun x hx => h x (List.mem_cons_of_mem _ hx)) a,
      digitVal_digitChr d (h d (List.mem_cons_self _ _))]
    simp only [natOfRev, List.length_cons, pow_succ]
    ring

theorem parseDigitsVal_natRepr (n : ℕ) : parseDigitsVal (natRepr n) = n := by
  by_cases h0 : n = 0
  · subst h0; rfl
  · unfold natRepr parseDigitsVal
    rw [if_neg h0, foldl_digits _ (natDigitsRevF_lt n n) 0,
      natOfRev_natDigitsRevF n n le_rfl]
    simp

theorem natRepr_ne_nil (n : ℕ) : natRepr n ≠ [] := by
  unfold natRepr
  by_cases h0 : n = 0
  · simp [h0]
  · rw [if_neg h0]
    cases n with
    | zero => exact absurd rfl h0
    | succ m =>
      simp only [natDigitsRevF, Nat.succ_ne_zero, if_neg, ite_false]
      simp

theorem mem_natRepr_isDig (n : ℕ) : ∀ c ∈ natRepr n, isDig c = true := by
  unfold natRepr
  by_cases h0 : n = 0
  · intro c hc; simp [h0] at hc; subst hc; rfl
  · rw [if_neg h0]
    intro c hc
    rw [List.mem_reverse, List.mem_map] at hc
    obtain ⟨d, hd, rfl⟩ := hc
    exact isDig_digitChr d (natDigitsRevF_lt n n d hd)

theorem parseNatDigits_natRepr (n : ℕ) : parseNatDigits (natRepr n) = some n := by
  unfold parseNatDigits
  rw [if_pos ⟨natRepr_ne_nil n, List.all_eq_true.mpr (mem_natRepr_isDig n)⟩,
    parseDigitsVal_natRepr]

theorem length_natRepr_le (n k : ℕ) (h1 : 1 ≤ k) (h2 : n < 10 ^ k) :
    (natRepr n).length ≤ k := by
  unfold natRepr
  by_cases h0 : n = 0
  · simp [h0]; omega
  · rw [if_neg h0]
    simp only [List.length_reverse, List.length_map]
    exact length_natDigitsRevF n n k le_rfl h2

theorem dropWhile_eq_self_of_not_ws (l : PyStr)
    (h : ∀ c ∈ l, isPyWs c = false) : l.dropWhile isPyWs = l := by
  cases l with
  | nil => rfl
  | cons c cs =>
    rw [List.dropWhile_cons, if_neg]
    simp [h c (List.mem_cons_self _ _)]

theorem pyStrip_eq_self_of_not_ws (l : PyStr)
    (h : ∀ c ∈ l, isPyWs c = false) : pyStrip l = l := by
  unfold pyStrip
  rw [dropWhile_eq_self_of_not_ws l h,
    dropWhile_eq_self_of_not_ws l.reverse
      (fun c hc => h c (List.mem_reverse.mp hc)),
    List.reverse_reverse]

theorem not_ws_natRepr (n : ℕ) : ∀ c ∈ natRepr n, isPyWs c = false :=
  fun c hc => isDig_not_ws c (mem_natRepr_isDig n c hc)

theorem pythonInt_intRepr (i : ℤ) : pythonInt (intRepr i) = some i := by
  by_cases hneg : i < 0
  · unfold intRepr
    rw [if_pos hneg]
    unfold pythonInt
    rw [pyStrip_eq_self_of_not_ws _ ?hws]
    case hws =>
      intro c hc
      rcases List.mem_cons.mp hc with rfl | hc2
      · decide
      · exact not_ws_natRepr _ c hc2
    dsimp only
    rw [if_pos rfl, parseNatDigits_natRepr]
    simp only [Option.map_some', Option.some.injEq]
    omega
  · unfold intRepr
    rw [if_neg hneg]
    unfold pythonInt
    rw [pyStrip_eq_self_of_not_ws _ (not_ws_natRepr _)]
    obtain ⟨c, cs, hcc⟩ := List.exists_cons_of_ne_nil (natRepr_ne_nil i.natAbs)
    have hdig : isDig c = true :=
      mem_natRepr_isDig _ c (hcc ▸ List.mem_cons_self c cs)
    rw [hcc]
    dsimp only
    rw [if_neg (by rintro rfl; revert hdig; decide),
      if_neg (by rintro rfl; revert hdig; decide),
      ← hcc, parseNatDigits_natRepr]
    simp only [Option.map_some', Option.some.injEq]
    omega

theorem splitDot_append (a b : PyStr) (h : ∀ c ∈ a, isDig c = true) :
    splitDot (a ++ '.' :: b) = (a, some b) := by
  induction a with
  | nil => simp [splitDot]
  | cons c a2 ih =>
    have hne : c ≠ '.' := by
      have hc := h c (List.mem_cons_self _ _)
      rintro rfl; revert hc; decide
    simp [splitDot, hne, ih (fun x hx => h x (List.mem_cons_of_mem _ hx))]

theorem foldl_replicate_zero (m : ℕ) :
    List.foldl (fun a c => a * 10 + digitVal c) 0 (List.replicate m '0') = 0 := by
  induction m with
  | zero => rfl
  | succ m2 ih => simpa [List.replicate_succ] using ih

theorem parseDigitsVal_padZeros (w : ℕ) (l : PyStr) :
    parseDigitsVal (padZeros w l) = parseDigitsVal l := by
  unfold padZeros parseDigitsVal
  rw [List.foldl_append, foldl_replicate_zero]

theorem parseFloatMag_encode (ip fp : PyStr) (hip1 : ip ≠ [])
    (hip : ∀ c ∈ ip, isDig c = true) (hfp : ∀ c ∈ fp, isDig c = true) :
    parseFloatMag (ip ++ '.' :: fp) =
      some (parseDigitsVal ip * 10 ^ fp.length + parseDigitsVal fp,
        10 ^ fp.length) := by
  unfold parseFloatMag
  rw [splitDot_append ip fp hip]
  dsimp only
  rw [if_pos ⟨Or.inl hip1, List.all_eq_true.mpr hip, List.all_eq_true.mpr hfp⟩]

theorem pythonFloat_priceRepr (q : ℚ) (hd : q.den ∣ 10 ^ priceExp q) :
    pythonFloat (priceRepr q) = some q := by
  have hk1 : 1 ≤ priceExp q := le_max_left _ _
  have hdenq : (q.den : ℚ) ≠ 0 := Nat.cast_ne_zero.mpr q.den_nz
  have hdvd : (q.den : ℤ) ∣ q.num * 10 ^ priceExp q :=
    Dvd.dvd.mul_left (by exact_mod_cast hd) q.num
  have hP1 : priceScaled q * q.den = q.num * 10 ^ priceExp q :=
    Int.ediv_mul_cancel hdvd
  have hqden : q * (q.den : ℚ) = (q.num : ℚ) := by
    nth_rewrite 1 [← Rat.num_div_den q]
    exact div_mul_cancel₀ _ hdenq
  have hP2 : (priceScaled q : ℚ) = q * 10 ^ priceExp q := by
    have hcast : (priceScaled q : ℚ) * (q.den : ℚ) =
        (q.num : ℚ) * 10 ^ priceExp q := by exact_mod_cast hP1
    apply mul_right_cancel₀ hdenq
    rw [hcast, ← hqden]
    ring
  have hmk : mkRat (priceScaled q) (10 ^ priceExp q) = q := by
    rw [Rat.mkRat_eq_div, hP2]
    push_cast
    field_simp
  have hfplen :
      (padZeros (priceExp q) (natRepr ((priceScaled q).natAbs % 10 ^ priceExp q))).length =
        priceExp q := by
    unfold padZeros
    rw [List.length_append, List.length_replicate]
    have hlt : (priceScaled q).natAbs % 10 ^ priceExp q < 10 ^ priceExp q :=
      Nat.mod_lt _ (by positivity)
    have := length_natRepr_le ((priceScaled q).natAbs % 10 ^ priceExp q)
      (priceExp q) hk1 hlt
    omega
  have hfpdig : ∀ c ∈ padZeros (priceExp q)
      (natRepr ((priceScaled q).natAbs % 10 ^ priceExp q)), isDig c = true := by
    intro c hc
    unfold padZeros at hc
    rcases List.mem_append.mp hc with h1 | h1
    · rw [List.eq_of_mem_replicate h1]; rfl
    · exact mem_natRepr_isDig _ c h1
  have hmag : parseFloatMag
      (natRepr ((priceScaled q).natAbs / 10 ^ priceExp q) ++ '.' ::
        padZeros (priceExp q) (natRepr ((priceScaled q).natAbs % 10 ^ priceExp q))) =
      some ((priceScaled q).natAbs, 10 ^ priceExp q) := by
    rw [parseFloatMag_encode _ _ (natRepr_ne_nil _) (mem_natRepr_isDig _) hfpdig]
    rw [hfplen, parseDigitsVal_padZeros, parseDigitsVal_natRepr,
      parseDigitsVal_natRepr, Nat.div_add_mod']
  have hnws : ∀ c ∈ natRepr ((priceScaled q).natAbs / 10 ^ priceExp q) ++ '.' ::
      padZeros (priceExp q) (natRepr ((priceScaled q).natAbs % 10 ^ priceExp q)),
      isPyWs c = false := by
    intro c hc
    rcases List.mem_append.mp hc with h1 | h1
    · exact not_ws_natRepr _ c h1
    · rcases List.mem_cons.mp h1 with rfl | h2
      · decide
      · exact isDig_not_ws c (hfpdig c h2)
  by_cases hneg : priceScaled q < 0
  · have hrep : priceRepr q =
        '-' :: (natRepr ((priceScaled q).natAbs / 10 ^ priceExp q) ++ '.' ::
          padZeros (priceExp q)
            (natRepr ((priceScaled q).natAbs % 10 ^ priceExp q))) := by
      unfold priceRepr
      rw [if_pos hneg]
      rfl
    rw [hrep]
    unfold pythonFloat
    rw [pyStrip_eq_self_of_not_ws _ ?hws1]
    case hws1 =>
      intro c hc
      rcases List.mem_cons.mp hc with rfl | h2
      · decide
      · exact hnws c h2
    dsimp only
    rw [if_pos rfl, hmag]
    simp only [Option.map_some', Option.some.injEq]
    have habs : -((priceScaled q).natAbs : ℤ) = priceScaled q := by omega
    rw [habs, hmk]
  · have hrep : priceRepr q =
        natRepr ((priceScaled q).natAbs / 10 ^ priceExp q) ++ '.' ::
          padZeros (priceExp q)
            (natRepr ((priceScaled q).natAbs % 10 ^ priceExp q)) := by
      unfold priceRepr
      rw [if_neg hneg]
      rfl
    rw [hrep]
    unfold pythonFloat
    rw [pyStrip_eq_self_of_not_ws _ hnws]
    obtain ⟨c, cs, hcc⟩ := List.exists_cons_of_ne_nil
      (natRepr_ne_nil ((priceScaled q).natAbs / 10 ^ priceExp q))
    have hdig : isDig c = true :=
      mem_natRepr_isDig _ c (hcc ▸ List.mem_cons_self c cs)
    rw [hcc, List.cons_append]
    dsimp only
    rw [if_neg (by rintro rfl; revert hdig; decide),
      if_neg (by rintro rfl; revert hdig; decide),
      ← List.cons_append, ← hcc, hmag]
    simp only [Option.map_some', Option.some.injEq]
    have habs : ((priceScaled q).natAbs : ℤ) = priceScaled q := by omega
    rw [habs, hmk]

/-! ### CSV round-trip lemmas (for C6) -/

theorem needsQuote_false_mem (f : PyStr) (h : needsQuote f = false) :
    ∀ c ∈ f, ¬(c = ',' ∨ c = '"' ∨ c = '\r' ∨ c = '\n') := by
  intro c hc hor
  unfold needsQuote at h
  rw [List.any_eq_false] at h
  have h2 := h c hc
  rcases hor with h1 | h1 | h1 | h1 <;> simp [h1] at h2

theorem parseQuotedF_escape (f : PyStr) : ∀ (fuel : ℕ) (acc rest : PyStr),
    (escapeQuotes f).length < fuel → rest.head? ≠ some '"' →
    parseQuotedF fuel acc (escapeQuotes f ++ '"' :: rest) =
      some (acc ++ f, rest) := by
  induction f with
  | nil =>
    intro fuel acc rest hf hr
    match fuel, hf with
    | fuel2 + 1, _ =>
      simp only [escapeQuotes, List.nil_append, parseQuotedF]
      simp [hr]
  | cons c f2 ih =>
    intro fuel acc rest hf hr
    match fuel, hf with
    | fuel2 + 1, hf =>
      by_cases hc : c = '"'
      · subst hc
        have he : escapeQuotes ('"' :: f2) = '"' :: '"' :: escapeQuotes f2 := by
          simp [escapeQuotes]
        rw [he] at hf ⊢
        simp only [List.length_cons] at hf
        simp only [List.cons_append]
        have hstep : ∀ s, parseQuotedF (fuel2 + 1) acc ('"' :: '"' :: s) =
            parseQuotedF fuel2 (acc ++ ['"']) s := fun s => by
          simp [parseQuotedF]
        rw [hstep, ih fuel2 (acc ++ ['"']) rest (by omega) hr]
        simp
      · have he : escapeQuotes (c :: f2) = c :: escapeQuotes f2 := by
          simp [escapeQuotes, hc]
        rw [he] at hf ⊢
        simp only [List.length_cons] at hf
        simp only [List.cons_append]
        have hstep : ∀ s, parseQuotedF (fuel2 + 1) acc (c :: s) =
            parseQuotedF fuel2 (acc ++ [c]) s := fun s => by
          simp [parseQuotedF, hc]
        rw [hstep, ih fuel2 (acc ++ [c]) rest (by omega) hr]
        simp

theorem parseUnquoted_encode (f : PyStr)
    (hf : ∀ c ∈ f, ¬(c = ',' ∨ c = '"' ∨ c = '\r' ∨ c = '\n')) :
    ∀ rest : PyStr,
    (rest.head? = some ',' ∨
      rest.head? = some '\r' ∧ rest.tail.head? = some '\n') →
    parseUnquoted (f ++ rest) = (f, rest) := by
  induction f with
  | nil =>
    intro rest hr
    rcases hr with h1 | ⟨h1, h2⟩
    · cases rest with
      | nil => simp at h1
      | cons c r =>
        simp only [List.head?_cons, Option.some.injEq] at h1
        subst h1
        simp [parseUnquoted]
    · cases rest with
      | nil => simp at h1
      | cons c r =>
        simp only [List.head?_cons, Option.some.injEq] at h1
        subst h1
        simp only [List.tail_cons] at h2
        simp [parseUnquoted, h2]
  | cons c f2 ih =>
    intro rest hr
    have hc := hf c (List.mem_cons_self _ _)
    push_neg at hc
    simp only [List.cons_append, parseUnquoted, List.append_eq]
    rw [if_neg hc.1, if_neg (by rintro ⟨hcr, _⟩; exact hc.2.2.1 hcr)]
    rw [ih (fun x hx => hf x (List.mem_cons_of_mem _ hx)) rest hr]

theorem parseFieldP_encode (f rest : PyStr)
    (hr : rest.head? = some ',' ∨
      rest.head? = some '\r' ∧ rest.tail.head? = some '\n') :
    parseFieldP (encodeField f ++ rest) = some (f, rest) := by
  have hrq : rest.head? ≠ some '"' := by
    rcases hr with h1 | ⟨h1, _⟩ <;> rw [h1] <;> simp
  unfold encodeField
  by_cases hq : needsQuote f = true
  · rw [if_pos hq]
    have hs : ('"' :: (escapeQuotes f ++ ['"'])) ++ rest =
        '"' :: (escapeQuotes f ++ '"' :: rest) := by simp
    rw [hs]
    unfold parseFieldP
    rw [if_pos (by simp)]
    simp only [List.tail_cons, List.length_cons]
    rw [parseQuotedF_escape f _ [] rest (by simp; omega) hrq]
    simp
  · rw [if_neg hq]
    have hmem := needsQuote_false_mem f (by simpa using hq)
    unfold parseFieldP
    rw [if_neg ?hh]
    case hh =>
      cases f with
      | nil => simpa using hrq
      | cons c f2 =>
        have := hmem c (List.mem_cons_self _ _)
        push_neg at this
        simpa using this.2.1
    rw [parseUnquoted_encode f hmem rest hr]

theorem parseRowFieldsF_encode : ∀ (fields : List PyStr), fields ≠ [] →
    ∀ (tail : PyStr) (fuel : ℕ), fields.length < fuel →
    parseRowFieldsF fuel (encodeRow fields ++ tail) = some (fields, tail) := by
  intro fields
  induction fields with
  | nil => intro h; exact absurd rfl h
  | cons f fs ih =>
    intro _ tail fuel hf
    match fuel, hf with
    | fuel2 + 1, hf =>
      cases fs with
      | nil =>
        have hs : encodeRow [f] ++ tail =
            encodeField f ++ ('\r' :: '\n' :: tail) := by
          simp [encodeRow]
        rw [hs]
        simp only [parseRowFieldsF]
        rw [parseFieldP_encode f ('\r' :: '\n' :: tail) (Or.inr ⟨rfl, rfl⟩)]
        simp
      | cons f2 fs2 =>
        have hs : encodeRow (f :: f2 :: fs2) ++ tail =
            encodeField f ++ (',' :: (encodeRow (f2 :: fs2) ++ tail)) := by
          simp [encodeRow]
        rw [hs]
        simp only [parseRowFieldsF]
        rw [parseFieldP_encode f (',' :: (encodeRow (f2 :: fs2) ++ tail))
          (Or.inl rfl)]
        have hrec := ih (by simp) tail fuel2 (by simp at hf ⊢; omega)
        simp [hrec]

theorem encodeRow_ne_nil (r : List PyStr) : encodeRow r ≠ [] := by
  match r with
  | [] => simp [encodeRow]
  | [f] => simp [encodeRow]
  | f :: f2 :: fs => simp [encodeRow]

theorem length_le_encodeRow (r : List PyStr) :
    r.length ≤ (encodeRow r).length := by
  match r with
  | [] => simp [encodeRow]
  | [f] => simp [encodeRow]
  | f :: f2 :: fs =>
    have := length_le_encodeRow (f2 :: fs)
    simp only [encodeRow, List.length_cons, List.length_append] at this ⊢
    omega

theorem two_le_length_encodeRow (r : List PyStr) :
    2 ≤ (encodeRow r).length := by
  match r with
  | [] => simp [encodeRow]
  | [f] => simp [encodeRow]
  | f :: f2 :: fs =>
    have := two_le_length_encodeRow (f2 :: fs)
    simp only [encodeRow, List.length_cons, List.length_append] at this ⊢
    omega

theorem length_le_encodeCSV (rows : List (List PyStr)) :
    rows.length ≤ (encodeCSV rows).length := by
  induction rows with
  | nil => simp [encodeCSV]
  | cons r rs ih =>
    have h2 := two_le_length_encodeRow r
    simp only [encodeCSV, List.map_cons, List.flatten_cons,
      List.length_append, List.length_cons] at ih ⊢
    omega

theorem parseRecordsF_encode : ∀ (rows : List (List PyStr)),
    (∀ r ∈ rows, r ≠ []) → ∀ fuel, rows.length < fuel →
    parseRecordsF fuel (encodeCSV rows) = some rows := by
  intro rows
  induction rows with
  | nil =>
    intro _ fuel hf
    match fuel, hf with
    | fuel2 + 1, _ => simp [encodeCSV, parseRecordsF]
  | cons r rs ih =>
    intro hne fuel hf
    match fuel, hf with
    | fuel2 + 1, hf =>
      have hsplit : encodeCSV (r :: rs) = encodeRow r ++ encodeCSV rs := by
        simp [encodeCSV]
      rw [hsplit]
      simp only [parseRecordsF]
      rw [if_neg (by simp [encodeRow_ne_nil r])]
      rw [parseRowFieldsF_encode r (hne r (List.mem_cons_self _ _))
        (encodeCSV rs) _ ?len]
      case len =>
        have h1 := length_le_encodeRow r
        simp only [List.length_append]
        omega
      have hrec := ih (fun x hx => hne x (List.mem_cons_of_mem _ hx)) fuel2
        (by simp at hf ⊢; omega)
      simp [hrec]

theorem parseCSV_encodeCSV (rows : List (List PyStr))
    (h : ∀ r ∈ rows, r ≠ []) : parseCSV (encodeCSV rows) = some rows := by
  unfold parseCSV
  exact parseRecordsF_encode rows h _
    (by have := length_le_encodeCSV rows; omega)

theorem decodeRow_productRow (p : Product)
    (hd : p.price.den ∣ 10 ^ priceExp p.price) :
    decodeRow (productRow p) = some p := by
  have h1 := pythonFloat_priceRepr p.price hd
  have h2 := pythonInt_intRepr p.rating
  have h3 := pythonInt_intRepr p.num_of_reviews
  simp [decodeRow, productRow, h1, h2, h3]

/-- C6: writer round-trip — for every list of product records (with the
float prices carrying their exact finite-decimal rational values, i.e.
denominators dividing the printed power of ten), writing them with
`write_products_to_csv` and re-reading the file yields exactly one header
row (the five field names in declaration order) followed by one data row
per record, in input order, whose field values coerce back (str, str,
float, int, int) to the original records. -/
theorem writer_round_trip (products : List Product)
    (hfin : ∀ p ∈ products, p.price.den ∣ 10 ^ priceExp p.price) :
    ∃ rows,
      parseCSV (csvContent products) = some (PRODUCT_FIELDS :: rows) ∧
      rows.length = products.length ∧
      rows.map decodeRow = products.map some := by
  refine ⟨products.map productRow, ?_, by simp, ?_⟩
  · unfold csvContent
    apply parseCSV_encodeCSV
    intro r hr
    rcases List.mem_cons.mp hr with rfl | hr2
    · simp [PRODUCT_FIELDS]
    · obtain ⟨p, _, rfl⟩ := List.mem_map.mp hr2
      simp [productRow]
  · rw [List.map_map]
    exact List.map_congr_left fun p hp => decodeRow_productRow p (hfin p hp)

/-- C6 witness: three records whose text fields contain quotes, commas,
spaces and a CRLF, with integer, dyadic-negative and zero prices. -/
theorem writer_round_trip_witness :
    (∀ p ∈ prodsRoundTrip, p.price.den ∣ 10 ^ priceExp p.price) ∧
    ∃ rows,
      parseCSV (csvContent prodsRoundTrip) = some (PRODUCT_FIELDS :: rows) ∧
      rows.length = prodsRoundTrip.length ∧
      rows.map decodeRow = prodsRoundTrip.map some :=
  ⟨by decide, writer_round_trip prodsRoundTrip (by decide)⟩
